import Mathlib

/-!
Shallow embedding of the gozod validation engine (Go).

The embedding follows the Go sources file by file:
* `errors.go`  — error codes, `ValidationError`, `ValidationErrors`,
  `PathToString`, `PathAppend`, `Flatten`;
* `schema.go`  — `BaseSchema`, `getErrorMessage`, `applyRefinements`,
  `applySuperRefinements`, `SuperRefineContext.AddIssue`;
* `string.go`, `int.go`, `float.go`, `bool.go`, `array.go`, `map.go`,
  `struct.go` — the schema variants and their `Validate` methods.

Modelling conventions:
* Go `any` input values are a tagged dynamic tree `Value`
  (nil / bool / the integer kinds / the float kinds / string / slice or
  array / map / struct, plus the non-nil interface holding a nil typed
  pointer that `StructSchema.Validate` treats as absence).
* Go `float64` is embedded as `ℚ`; every concrete input used in a theorem
  is exactly representable in binary floating point and every operation on
  it is exact, so the rational model agrees with the Go computation there.
  The Go literals `0.0001` and `0.9999` are modelled by their decimal
  values.
* Go `fmt` `%T` renders a Go type name; it is modelled by `goTypeName`,
  a deterministic rendering of the tag of the dynamic value (the several
  Go integer widths collapse to one tag).  Go `%v` on `float64` is
  modelled by the deterministic rendering `goFloatStr`.
* The user-supplied refinement and super-refinement closures are embedded
  as Lean functions; a super refinement is the list of issues it emits
  through `SuperRefineContext.AddIssue` (its only mutation surface).
* The user-supplied compiled regular expression of `StringSchema.Regex` is
  an external-engine artefact and is embedded as an opaque-to-the-schema
  string predicate carried by the schema; the two fixed patterns of
  `Email` and `URL` are implemented concretely below.
-/

namespace Gozod

/-- A path segment: a field name or a list index (errors.go path arrays
hold strings and ints). -/
inductive PathSeg where
  | name (s : String)
  | idx (n : Nat)
deriving DecidableEq

/-- A path: ordered list of segments (errors.go `[]any`). -/
abbrev Path := List PathSeg

/-- errors.go `ErrCodeRequired`. -/
def ErrCodeRequired : String := "required"
/-- errors.go `ErrCodeInvalidType`. -/
def ErrCodeInvalidType : String := "invalid_type"
/-- errors.go `ErrCodeTooSmall`. -/
def ErrCodeTooSmall : String := "too_small"
/-- errors.go `ErrCodeTooBig`. -/
def ErrCodeTooBig : String := "too_big"
/-- errors.go `ErrCodeInvalidString`. -/
def ErrCodeInvalidString : String := "invalid_string"
/-- errors.go `ErrCodeInvalidEnumValue`. -/
def ErrCodeInvalidEnumValue : String := "invalid_enum_value"
/-- errors.go `ErrCodeUnrecognizedKeys`. -/
def ErrCodeUnrecognizedKeys : String := "unrecognized_keys"
/-- errors.go `ErrCodeCustomValidation`. -/
def ErrCodeCustomValidation : String := "custom_validation"

/-- errors.go `ValidationError` (the optional `Meta` bag is only filled by
`AddIssueWithMeta`, which no claim touches; it is omitted). -/
structure VError where
  path : Path
  code : String
  message : String
deriving DecidableEq

/-- errors.go `PathAppend`: append one part, returning a fresh array. -/
def PathAppend (p : Path) (part : PathSeg) : Path := p ++ [part]

/-- The dynamic value tree handed to `Validate` (the decoded `any`). -/
inductive Value where
  /-- the untyped nil interface -/
  | vnil
  | vbool (b : Bool)
  /-- any of Go int, int8..int64, uint..uint32 (and uint64 up to 2^63-1) -/
  | vint (n : Int)
  /-- Go float32 or float64, embedded exactly as a rational -/
  | vfloat (q : ℚ)
  | vstr (s : String)
  /-- a Go slice or array value -/
  | varr (elems : List Value)
  /-- a Go map value, keys already rendered to strings -/
  | vmap (entries : List (String × Value))
  /-- a Go struct (or non-nil pointer to struct, already dereferenced);
  fields carry their resolved external names and extracted values, with a
  nil-pointer field or an empty omitempty field extracted as `vnil` -/
  | vstruct (fields : List (String × Value))
  /-- a non-nil interface holding a nil typed pointer -/
  | vnilptr

/-- The primitive tag of a dynamic value (what a Go type switch sees). -/
inductive PKind where
  | knil | kbool | kint | kfloat | kstring | karray | kmap | kstruct | knilptr
deriving DecidableEq

/-- Tag of a `Value`. -/
def Value.kind : Value → PKind
  | .vnil => .knil
  | .vbool _ => .kbool
  | .vint _ => .kint
  | .vfloat _ => .kfloat
  | .vstr _ => .kstring
  | .varr _ => .karray
  | .vmap _ => .kmap
  | .vstruct _ => .kstruct
  | .vnilptr => .knilptr

/-- Rendering of Go `%T` on a dynamic value: a deterministic type-name
string per tag (the several Go widths of one kind collapse). -/
def goTypeName : Value → String
  | .vnil => "<nil>"
  | .vbool _ => "bool"
  | .vint _ => "int"
  | .vfloat _ => "float64"
  | .vstr _ => "string"
  | .varr _ => "[]interface \x7b\x7d"
  | .vmap _ => "map[string]interface \x7b\x7d"
  | .vstruct _ => "struct"
  | .vnilptr => "*struct"

/-- Deterministic rendering standing for Go `%v` on a `float64`. -/
def goFloatStr (q : ℚ) : String := toString q

/-- Go `len` on a string: its UTF-8 byte length. -/
def goLen (s : String) : Nat := s.data.foldl (fun n c => n + c.utf8Size) 0

/-- schema.go `BaseSchema`.  `errorFormatter` is `CustomErrorFunc`;
`refinements` are `RefineFunc` values (value to pass/fail plus message);
`superRefinements` are `SuperRefineFunc` values, embedded as the list of
(relative path, code, message) issues emitted through the context. -/
structure Base where
  required : Bool := true
  nilable : Bool := false
  customErrors : List (String × String) := []
  errorFormatter : Option (Path → String → String → String) := none
  refinements : List (Value → Bool × String) := []
  superRefinements : List (Value → List (Path × String × String)) := []

/-- Go map lookup on a string-keyed association list (keys unique). -/
def lookupStr (l : List (String × String)) (k : String) : Option String :=
  (l.find? (fun e => e.1 = k)).map (fun e => e.2)

/-- schema.go `BaseSchema.getErrorMessage`: formatter first, then the
per-code override table, then the supplied default. -/
def getErrorMessage (b : Base) (p : Path) (code default : String) : String :=
  match b.errorFormatter with
  | some f => f p code default
  | none =>
    match lookupStr b.customErrors code with
    | some customMsg => customMsg
    | none => default

/-- schema.go `BaseSchema.applyRefinements`: run every refinement on the
value; each failing one appends one `custom_validation` error at the
current path, the refinement message (when non-empty) serving as the
default handed to `getErrorMessage`. -/
def applyRefinements (b : Base) (v : Value) (p : Path) : List VError :=
  b.refinements.flatMap fun refine =>
    let r := refine v
    if r.1 then []
    else
      let message :=
        if r.2 = "" then
          getErrorMessage b p ErrCodeCustomValidation "Custom validation failed"
        else
          getErrorMessage b p ErrCodeCustomValidation r.2
      [⟨p, ErrCodeCustomValidation, message⟩]

/-- schema.go `BaseSchema.applySuperRefinements` with
`SuperRefineContext.AddIssue`: each emitted issue lands at the base path
plus its relative path, with its code and message taken verbatim. -/
def applySuperRefinements (b : Base) (v : Value) (p : Path) : List VError :=
  b.superRefinements.flatMap fun superRefine =>
    (superRefine v).map fun issue => ⟨p ++ issue.1, issue.2.1, issue.2.2⟩

/-- Character class `[a-zA-Z0-9._%+\-]` of the string.go email pattern. -/
def isEmailLocalChar (c : Char) : Bool :=
  c.isAlpha || c.isDigit || c = '.' || c = '_' || c = '%' || c = '+' || c = '-'

/-- Character class `[a-zA-Z0-9.\-]` of the string.go email pattern. -/
def isEmailDomainChar (c : Char) : Bool :=
  c.isAlpha || c.isDigit || c = '.' || c = '-'

/-- `[a-zA-Z]\x7b2,\x7d$`: at least two characters, all ASCII letters. -/
def emailTld (l : List Char) : Bool :=
  decide (2 ≤ l.length) && l.all (fun c => c.isAlpha)

/-- Matcher for `[a-zA-Z0-9.\-]+\.[a-zA-Z]\x7b2,\x7d$` anchored at both
ends; the flag records whether at least one domain character was read. -/
def emailDomainScan : List Char → Bool → Bool
  | [], _ => false
  | c :: rest, seen =>
    (c = '.' && seen && emailTld rest) ||
    (isEmailDomainChar c && emailDomainScan rest true)

/-- Matcher for the local part followed by `@` and the domain, anchored;
the flag records whether at least one local character was read. -/
def emailLocalScan : List Char → Bool → Bool
  | [], _ => false
  | c :: rest, seen =>
    (c = '@' && seen && emailDomainScan rest false) ||
    (isEmailLocalChar c && emailLocalScan rest true)

/-- The fixed email pattern `^[a-zA-Z0-9._%+\-]+@[a-zA-Z0-9.\-]+\.[a-zA-Z]\x7b2,\x7d$`
compiled in string.go, as a concrete matcher. -/
def emailRegexMatch (s : String) : Bool := emailLocalScan s.data false

/-- Go regexp `\s`: `[\t\n\f\r ]`. -/
def isGoSpace (c : Char) : Bool :=
  c = ' ' || c = '\t' || c = '\n' || c = '\x0c' || c = '\r'

/-- Matcher for `[^\s/$.?#].[^\s]*$` (the part of the string.go URL
pattern after the scheme); `.` matches any character except newline. -/
def urlAfterScheme : List Char → Bool
  | c1 :: c2 :: rest =>
    !(isGoSpace c1 || c1 = '/' || c1 = '$' || c1 = '.' || c1 = '?' || c1 = '#') &&
    c2 ≠ '\n' &&
    rest.all (fun c => !isGoSpace c)
  | _ => false

/-- The fixed URL pattern `^https?://[^\s/$.?#].[^\s]*$` compiled in
string.go, as a concrete matcher. -/
def urlRegexMatch (s : String) : Bool :=
  match s.data with
  | 'h' :: 't' :: 't' :: 'p' :: rest =>
    match rest with
    | 's' :: ':' :: '/' :: '/' :: r => urlAfterScheme r
    | ':' :: '/' :: '/' :: r => urlAfterScheme r
    | _ => false
  | _ => false

/-- Does `hay` start with `needle` (strings.HasPrefix on char lists)? -/
def listStartsWith : List Char → List Char → Bool
  | _, [] => true
  | [], _ :: _ => false
  | c :: cs, d :: ds => c = d && listStartsWith cs ds

/-- strings.Contains on char lists. -/
def listContains (hay needle : List Char) : Bool :=
  listStartsWith hay needle ||
  match hay with
  | [] => false
  | _ :: rest => listContains rest needle

/-- strings.HasPrefix. -/
def goHasPrefix (s pre : String) : Bool := listStartsWith s.data pre.data

/-- strings.HasSuffix. -/
def goHasSuffix (s suf : String) : Bool :=
  listStartsWith s.data.reverse suf.data.reverse

/-- strings.Contains. -/
def goContains (s sub : String) : Bool := listContains s.data sub.data

/-- string.go `StringSchema` constraint state (Go `int` lengths are `Int`;
`regex` carries the compiled matcher of the user-supplied pattern). -/
structure StringCons where
  minLength : Option Int := none
  maxLength : Option Int := none
  email : Bool := false
  url : Bool := false
  regex : Option (String → Bool) := none
  regexMessage : String := ""
  oneOf : List String := []
  notOneOf : List String := []
  startsWith : Option String := none
  endsWith : Option String := none
  includes : Option String := none

/-- int.go `IntSchema` constraint state (`int64` fields as `Int`). -/
structure IntCons where
  min : Option Int := none
  max : Option Int := none
  positive : Bool := false
  negative : Bool := false
  nonNegative : Bool := false
  nonPositive : Bool := false
  multipleOf : Option Int := none

/-- float.go `FloatSchema` constraint state (`float64` fields as `ℚ`). -/
structure FloatCons where
  min : Option ℚ := none
  max : Option ℚ := none
  positive : Bool := false
  negative : Bool := false
  nonNegative : Bool := false
  nonPositive : Bool := false
  multipleOf : Option ℚ := none

/-- array.go `ArraySchema` constraint state. -/
structure ArrayCons where
  minLength : Option Int := none
  maxLength : Option Int := none
  nonEmpty : Bool := false

/-- The schema tree: one constructor per variant, each carrying its
constraint state and its `BaseSchema`. -/
inductive Schema where
  | string (sc : StringCons) (b : Base)
  | int (ic : IntCons) (b : Base)
  | float (fc : FloatCons) (b : Base)
  | bool (b : Base)
  | array (elem : Schema) (ac : ArrayCons) (b : Base)
  | map (shape : List (String × Schema)) (strict : Bool) (b : Base)
  | struct (shape : List (String × Schema)) (strict : Bool) (b : Base)

/-- The `BaseSchema` of a schema. -/
def Schema.base : Schema → Base
  | .string _ b => b
  | .int _ b => b
  | .float _ b => b
  | .bool b => b
  | .array _ _ b => b
  | .map _ _ b => b
  | .struct _ _ b => b

/-- The single `required` error every variant emits on the absence value
when it is not nilable. -/
def requiredError (b : Base) (p : Path) : VError :=
  ⟨p, ErrCodeRequired, getErrorMessage b p ErrCodeRequired "Required"⟩

/-- The single `invalid_type` error emitted on a primitive-kind mismatch,
with the Go `Expected ..., got %T`-style default message. -/
def invalidTypeError (b : Base) (p : Path) (default : String) : VError :=
  ⟨p, ErrCodeInvalidType, getErrorMessage b p ErrCodeInvalidType default⟩

/-- The final `if len(errors.Errors) == 0 \x7b return nil \x7d` step of
every `Validate` method: absence for an empty accumulation, the
accumulated collection otherwise. -/
def finishResult (errs : List VError) : Option (List VError) :=
  if errs.isEmpty then none else some errs

/-- string.go `StringSchema.Validate`, the built-in constraint section
(length, email, URL, regex, membership, prefix/suffix/substring), in
source order; all constraints run independently. -/
def validateString (sc : StringCons) (b : Base) (str : String) (p : Path) : List VError :=
  (match sc.minLength with
   | some m =>
     if (goLen str : Int) < m then
       [⟨p, ErrCodeTooSmall, getErrorMessage b p ErrCodeTooSmall
         ("String must be at least " ++ toString m ++ " character(s) long, got " ++
          toString (goLen str))⟩]
     else []
   | none => []) ++
  (match sc.maxLength with
   | some m =>
     if m < (goLen str : Int) then
       [⟨p, ErrCodeTooBig, getErrorMessage b p ErrCodeTooBig
         ("String must be at most " ++ toString m ++ " character(s) long, got " ++
          toString (goLen str))⟩]
     else []
   | none => []) ++
  (if sc.email && !emailRegexMatch str then
     [⟨p, ErrCodeInvalidString, getErrorMessage b p ErrCodeInvalidString
       "Invalid email format"⟩]
   else []) ++
  (if sc.url && !urlRegexMatch str then
     [⟨p, ErrCodeInvalidString, getErrorMessage b p ErrCodeInvalidString
       "Invalid URL format"⟩]
   else []) ++
  (match sc.regex with
   | some matcher =>
     if !matcher str then
       [⟨p, ErrCodeInvalidString,
         if sc.regexMessage = "" then
           getErrorMessage b p ErrCodeInvalidString
             "String does not match required pattern"
         else sc.regexMessage⟩]
     else []
   | none => []) ++
  (if !sc.oneOf.isEmpty && !sc.oneOf.any (fun o => o = str) then
     [⟨p, ErrCodeInvalidEnumValue, getErrorMessage b p ErrCodeInvalidEnumValue
       ("String must be one of: " ++ String.intercalate ", " sc.oneOf)⟩]
   else []) ++
  (if !sc.notOneOf.isEmpty && sc.notOneOf.any (fun o => o = str) then
     [⟨p, ErrCodeInvalidEnumValue, getErrorMessage b p ErrCodeInvalidEnumValue
       ("String must not be one of: " ++ String.intercalate ", " sc.notOneOf)⟩]
   else []) ++
  (match sc.startsWith with
   | some pre =>
     if !goHasPrefix str pre then
       [⟨p, ErrCodeInvalidString, getErrorMessage b p ErrCodeInvalidString
         ("String must start with \x27" ++ pre ++ "\x27")⟩]
     else []
   | none => []) ++
  (match sc.endsWith with
   | some suf =>
     if !goHasSuffix str suf then
       [⟨p, ErrCodeInvalidString, getErrorMessage b p ErrCodeInvalidString
         ("String must end with \x27" ++ suf ++ "\x27")⟩]
     else []
   | none => []) ++
  (match sc.includes with
   | some sub =>
     if !goContains str sub then
       [⟨p, ErrCodeInvalidString, getErrorMessage b p ErrCodeInvalidString
         ("String must include \x27" ++ sub ++ "\x27")⟩]
     else []
   | none => [])

/-- int.go `IntSchema.Validate`, the built-in constraint section, in
source order.  Go `%` truncates toward zero, i.e. `Int.tmod`; the code
divides by `*s.multipleOf` without a zero guard (Go would panic on a zero
divisor, so that case is outside the model). -/
def validateInt (ic : IntCons) (b : Base) (num : Int) (p : Path) : List VError :=
  (match ic.min with
   | some m =>
     if num < m then
       [⟨p, ErrCodeTooSmall, getErrorMessage b p ErrCodeTooSmall
         ("Number must be greater than or equal to " ++ toString m ++ ", got " ++
          toString num)⟩]
     else []
   | none => []) ++
  (match ic.max with
   | some m =>
     if m < num then
       [⟨p, ErrCodeTooBig, getErrorMessage b p ErrCodeTooBig
         ("Number must be less than or equal to " ++ toString m ++ ", got " ++
          toString num)⟩]
     else []
   | none => []) ++
  (if ic.positive && num ≤ 0 then
     [⟨p, ErrCodeTooSmall, getErrorMessage b p ErrCodeTooSmall
       ("Number must be positive (> 0), got " ++ toString num)⟩]
   else []) ++
  (if ic.negative && 0 ≤ num then
     [⟨p, ErrCodeTooBig, getErrorMessage b p ErrCodeTooBig
       ("Number must be negative (< 0), got " ++ toString num)⟩]
   else []) ++
  (if ic.nonNegative && num < 0 then
     [⟨p, ErrCodeTooSmall, getErrorMessage b p ErrCodeTooSmall
       ("Number must be non-negative (>= 0), got " ++ toString num)⟩]
   else []) ++
  (if ic.nonPositive && 0 < num then
     [⟨p, ErrCodeTooBig, getErrorMessage b p ErrCodeTooBig
       ("Number must be non-positive (<= 0), got " ++ toString num)⟩]
   else []) ++
  (match ic.multipleOf with
   | some d =>
     if Int.tmod num d ≠ 0 then
       [⟨p, ErrCodeInvalidType, getErrorMessage b p ErrCodeInvalidType
         ("Number must be a multiple of " ++ toString d ++ ", got " ++
          toString num)⟩]
     else []
   | none => [])

/-- Go's `int64(x)` conversion of a float: truncation toward zero (for
values whose truncation fits in `int64`, the only case the model covers),
expressed with the floor function. -/
def truncToward0 (q : ℚ) : Int := if 0 ≤ q then ⌊q⌋ else -⌊-q⌋

/-- float.go `FloatSchema.Validate`, the built-in constraint section, in
source order.  The multiple-of step is the literal translation of
`remainder := num / *s.multipleOf` followed by the check
`remainder - float64(int64(remainder)) > 0.0001 && ... < 0.9999`;
a zero divisor (Go float division yields Inf/NaN) is outside the model. -/
def validateFloat (fc : FloatCons) (b : Base) (num : ℚ) (p : Path) : List VError :=
  (match fc.min with
   | some m =>
     if num < m then
       [⟨p, ErrCodeTooSmall, getErrorMessage b p ErrCodeTooSmall
         ("Number must be greater than or equal to " ++ goFloatStr m ++ ", got " ++
          goFloatStr num)⟩]
     else []
   | none => []) ++
  (match fc.max with
   | some m =>
     if m < num then
       [⟨p, ErrCodeTooBig, getErrorMessage b p ErrCodeTooBig
         ("Number must be less than or equal to " ++ goFloatStr m ++ ", got " ++
          goFloatStr num)⟩]
     else []
   | none => []) ++
  (if fc.positive && num ≤ 0 then
     [⟨p, ErrCodeTooSmall, getErrorMessage b p ErrCodeTooSmall
       ("Number must be positive (> 0), got " ++ goFloatStr num)⟩]
   else []) ++
  (if fc.negative && 0 ≤ num then
     [⟨p, ErrCodeTooBig, getErrorMessage b p ErrCodeTooBig
       ("Number must be negative (< 0), got " ++ goFloatStr num)⟩]
   else []) ++
  (if fc.nonNegative && num < 0 then
     [⟨p, ErrCodeTooSmall, getErrorMessage b p ErrCodeTooSmall
       ("Number must be non-negative (>= 0), got " ++ goFloatStr num)⟩]
   else []) ++
  (if fc.nonPositive && 0 < num then
     [⟨p, ErrCodeTooBig, getErrorMessage b p ErrCodeTooBig
       ("Number must be non-positive (<= 0), got " ++ goFloatStr num)⟩]
   else []) ++
  (match fc.multipleOf with
   | some d =>
     let remainder := num / d
     let frac := remainder - (truncToward0 remainder : ℚ)
     if 1/10000 < frac ∧ frac < 9999/10000 then
       [⟨p, ErrCodeInvalidType, getErrorMessage b p ErrCodeInvalidType
         ("Number must be a multiple of " ++ goFloatStr d ++ ", got " ++
          goFloatStr num)⟩]
     else []
   | none => [])

/-- array.go `ArraySchema.Validate`, the length-constraint section
(non-empty, then minimum, then maximum), in source order. -/
def validateArrayLen (ac : ArrayCons) (b : Base) (l : List Value) (p : Path) : List VError :=
  (if ac.nonEmpty && l.length = 0 then
     [⟨p, ErrCodeTooSmall, getErrorMessage b p ErrCodeTooSmall
       "Array must not be empty"⟩]
   else []) ++
  (match ac.minLength with
   | some m =>
     if (l.length : Int) < m then
       [⟨p, ErrCodeTooSmall, getErrorMessage b p ErrCodeTooSmall
         ("Array must have at least " ++ toString m ++ " element(s), got " ++
          toString l.length)⟩]
     else []
   | none => []) ++
  (match ac.maxLength with
   | some m =>
     if m < (l.length : Int) then
       [⟨p, ErrCodeTooBig, getErrorMessage b p ErrCodeTooBig
         ("Array must have at most " ++ toString m ++ " element(s), got " ++
          toString l.length)⟩]
     else []
   | none => [])

/-- Go map / struct-field lookup: `value, exists := obj[name]`. -/
def assocLookup (entries : List (String × Value)) (k : String) : Option Value :=
  (entries.find? (fun e => e.1 = k)).map (fun e => e.2)

/-- map.go / struct.go per-field value extraction: a missing key is
synthesized as the absence value (`if !exists \x7b fieldValue = nil \x7d`). -/
def fieldLookup (entries : List (String × Value)) (k : String) : Value :=
  (assocLookup entries k).getD .vnil

/-- `_, exists := s.shape[key]` on the modelled shape. -/
def shapeHasKey (shape : List (String × Schema)) (k : String) : Bool :=
  shape.any (fun e => e.1 = k)

/-- map.go strict-mode scan: every input key not declared in the shape
yields one `unrecognized_keys` error at path + key. -/
def strictKeyErrors (shape : List (String × Schema)) (entries : List (String × Value))
    (b : Base) (p : Path) : List VError :=
  entries.flatMap fun e =>
    if shapeHasKey shape e.1 then []
    else
      let keyPath := PathAppend p (.name e.1)
      [⟨keyPath, ErrCodeUnrecognizedKeys, getErrorMessage b keyPath ErrCodeUnrecognizedKeys
        ("Unrecognized key \x27" ++ e.1 ++ "\x27")⟩]

/-- struct.go strict-mode scan over the struct's own (resolved) field
names, with the `Unrecognized field` message. -/
def structStrictErrors (shape : List (String × Schema)) (fields : List (String × Value))
    (b : Base) (p : Path) : List VError :=
  fields.flatMap fun e =>
    if shapeHasKey shape e.1 then []
    else
      let keyPath := PathAppend p (.name e.1)
      [⟨keyPath, ErrCodeUnrecognizedKeys, getErrorMessage b keyPath ErrCodeUnrecognizedKeys
        ("Unrecognized field \x27" ++ e.1 ++ "\x27")⟩]

/-- `if fieldErrors != nil \x7b errors.Errors = append(...) \x7d`. -/
def optErrList : Option (List VError) → List VError
  | none => []
  | some es => es

mutual

/-- The `Validate` method of every schema variant: absence handling, type
check with early return, built-in constraints, recursive descent for
composites, refinements, super refinements, and the final empty-check. -/
def validate : Schema → Value → Path → Option (List VError)
  | .string sc b, v, p =>
    match v with
    | .vnil => if b.nilable then none else some [requiredError b p]
    | .vstr s =>
      finishResult
        (validateString sc b s p ++
         applyRefinements b (.vstr s) p ++
         applySuperRefinements b (.vstr s) p)
    | v => some [invalidTypeError b p ("Expected string, got " ++ goTypeName v)]
  | .int ic b, v, p =>
    match v with
    | .vnil => if b.nilable then none else some [requiredError b p]
    | .vint n =>
      finishResult
        (validateInt ic b n p ++
         applyRefinements b (.vint n) p ++
         applySuperRefinements b (.vint n) p)
    | .vfloat _ => some [invalidTypeError b p "Expected integer, got float"]
    | v => some [invalidTypeError b p ("Expected integer, got " ++ goTypeName v)]
  | .float fc b, v, p =>
    match v with
    | .vnil => if b.nilable then none else some [requiredError b p]
    | .vint _ => some [invalidTypeError b p "Expected float, got integer"]
    | .vfloat q =>
      finishResult
        (validateFloat fc b q p ++
         applyRefinements b (.vfloat q) p ++
         applySuperRefinements b (.vfloat q) p)
    | v => some [invalidTypeError b p ("Expected float, got " ++ goTypeName v)]
  | .bool b, v, p =>
    match v with
    | .vnil => if b.nilable then none else some [requiredError b p]
    | .vbool bv =>
      finishResult
        (applyRefinements b (.vbool bv) p ++
         applySuperRefinements b (.vbool bv) p)
    | v => some [invalidTypeError b p ("Expected boolean, got " ++ goTypeName v)]
  | .array elem ac b, v, p =>
    match v with
    | .vnil => if b.nilable then none else some [requiredError b p]
    | .varr l =>
      finishResult
        (validateArrayLen ac b l p ++
         validateElems elem l 0 p ++
         applyRefinements b (.varr l) p ++
         applySuperRefinements b (.varr l) p)
    | v => some [invalidTypeError b p ("Expected array, got " ++ goTypeName v)]
  | .map shape strict b, v, p =>
    match v with
    | .vnil => if b.nilable then none else some [requiredError b p]
    | .vmap entries =>
      finishResult
        (validateShape shape entries p ++
         (if strict then strictKeyErrors shape entries b p else []) ++
         applyRefinements b (.vmap entries) p ++
         applySuperRefinements b (.vmap entries) p)
    | v => some [invalidTypeError b p ("Expected map, got " ++ goTypeName v)]
  | .struct shape strict b, v, p =>
    match v with
    | .vnil => if b.nilable then none else some [requiredError b p]
    | .vnilptr => if b.nilable then none else some [requiredError b p]
    | .vstruct fields =>
      finishResult
        (validateShape shape fields p ++
         (if strict then structStrictErrors shape fields b p else []) ++
         applyRefinements b (.vstruct fields) p ++
         applySuperRefinements b (.vstruct fields) p)
    | v => some [invalidTypeError b p ("Expected struct, got " ++ goTypeName v)]

/-- map.go / struct.go shape iteration: each declared field is validated
against the looked-up (or synthesized-absent) value at path + field name,
its failures appended to the parent's collection. -/
def validateShape : List (String × Schema) → List (String × Value) → Path → List VError
  | [], _, _ => []
  | (fname, fsch) :: rest, entries, p =>
    optErrList (validate fsch (fieldLookup entries fname) (PathAppend p (.name fname))) ++
    validateShape rest entries p

/-- array.go element loop: element `i` is validated at path + index `i`;
all elements are visited and their failures appended in index order. -/
def validateElems : Schema → List Value → Nat → Path → List VError
  | _, [], _, _ => []
  | elem, v :: vs, i, p =>
    optErrList (validate elem v (PathAppend p (.idx i))) ++
    validateElems elem vs (i + 1) p

end

/-- errors.go `PathToString`, per-segment rendering: a name renders as
itself, an index as `[n]`. -/
def renderSeg : PathSeg → String
  | .name s => s
  | .idx n => "[" ++ toString n ++ "]"

/-- `strings.HasPrefix(part, "[")`. -/
def bracketStart (s : String) : Bool :=
  match s.data with
  | c :: _ => c = '['
  | [] => false

/-- errors.go `PathToString` joining loop: the first part stands alone,
every later part is concatenated directly when it starts with `[` and with
a `.` separator otherwise. -/
def joinParts : List String → String
  | [] => ""
  | h :: t =>
    t.foldl (fun acc part => if bracketStart part then acc ++ part else acc ++ "." ++ part) h

/-- errors.go `PathToString`. -/
def PathToString (p : Path) : String := joinParts (p.map renderSeg)

/-- Does the regex `\[(\d+)\]` match starting right after a `[` here:
one or more digits then `]`. -/
def digitsThenClose : List Char → Bool
  | [] => false
  | ']' :: _ => true
  | c :: rest => c.isDigit && digitsThenClose rest

/-- Does the regex `\[(\d+)\]` match at the head of this character list. -/
def indexAt : List Char → Bool
  | '[' :: c :: rest => c.isDigit && digitsThenClose rest
  | _ => false

/-- `arrayIndexRegex.MatchString`: does `\[(\d+)\]` match anywhere. -/
def hasIndexSeg : List Char → Bool
  | [] => false
  | c :: rest => indexAt (c :: rest) || hasIndexSeg rest

/-- `arrayIndexRegex.Split(pathStr, 2)[0]`: the text before the leftmost
`\[(\d+)\]` match. -/
def keyBeforeIndex : List Char → List Char
  | [] => []
  | c :: rest => if indexAt (c :: rest) then [] else c :: keyBeforeIndex rest

/-- errors.go `FlattenErrorResult`; the Go `map[string][]string` of field
errors is modelled as a total function that is `[]` off its domain. -/
structure FlattenErrorResult where
  formErrors : List String
  fieldErrors : String → List String

/-- `result.FieldErrors[key] = append(result.FieldErrors[key], msg)`. -/
def addFieldError (fe : String → List String) (key msg : String) : String → List String :=
  fun k => if k = key then fe key ++ [msg] else fe k

/-- One iteration of the errors.go `Flatten` loop: an empty rendered path
files the message under form errors; otherwise the message is filed under
the text before the first array-index match when there is one, else under
the rendered path itself. -/
def flattenStep (acc : FlattenErrorResult) (e : VError) : FlattenErrorResult :=
  let pathStr := PathToString e.path
  if pathStr = "" then
    { acc with formErrors := acc.formErrors ++ [e.message] }
  else if hasIndexSeg pathStr.data then
    { acc with fieldErrors := addFieldError acc.fieldErrors ⟨keyBeforeIndex pathStr.data⟩ e.message }
  else
    { acc with fieldErrors := addFieldError acc.fieldErrors pathStr e.message }

/-- errors.go `ValidationErrors.Flatten`. -/
def Flatten (errs : List VError) : FlattenErrorResult :=
  errs.foldl flattenStep ⟨[], fun _ => []⟩

/-- The group key `Flatten` files a non-empty rendered path under. -/
def flattenKey (pathStr : String) : String :=
  if hasIndexSeg pathStr.data then ⟨keyBeforeIndex pathStr.data⟩ else pathStr

/-- The per-declared-field step of the map.go / struct.go shape loop:
look the field up (synthesizing absence when missing) and validate it at
path + field name. -/
def fieldErrors (fsch : Schema) (fname : String) (entries : List (String × Value))
    (p : Path) : List VError :=
  optErrList (validate fsch (fieldLookup entries fname) (PathAppend p (.name fname)))

/-! ### Helper lemmas -/

lemma finishResult_spec (l : List VError) :
    finishResult l = none ∨ ∃ es, finishResult l = some es ∧ es ≠ [] := by
  unfold finishResult
  split
  · exact Or.inl rfl
  · rename_i h
    exact Or.inr ⟨l, rfl, by simpa [List.isEmpty_iff] using h⟩

lemma finishResult_of_ne_nil {l : List VError} (h : l ≠ []) : finishResult l = some l := by
  unfold finishResult
  simp [List.isEmpty_iff, h]

/-- Every variant's absence handling: the absence value yields a single
`required` failure when the schema is not nilable, and validity when it
is. -/
lemma validate_vnil (s : Schema) (p : Path) :
    validate s .vnil p =
      if s.base.nilable then none else some [requiredError s.base p] := by
  cases s <;> simp [validate, Schema.base]

/-! ### Claim theorems -/

/-- C1: for every schema variant, `Validate` on the absence value returns
a collection holding exactly one `required` failure iff the schema is not
nilable, and the absent (valid) result iff it is nilable; for the struct
variant, a non-nil typed pointer that is itself nil at the top level is
treated exactly like the absence value. -/
theorem absence_yields_required_iff_not_nilable :
    (∀ (s : Schema) (p : Path),
      validate s .vnil p =
        if s.base.nilable then none else some [requiredError s.base p]) ∧
    (∀ (shape : List (String × Schema)) (strict : Bool) (b : Base) (p : Path),
      validate (.struct shape strict b) .vnilptr p =
        if b.nilable then none else some [requiredError b p]) := by
  constructor
  · exact validate_vnil
  · intro shape strict b p
    simp [validate]

/-- C2: for every scalar schema, a non-absent value of a different
primitive kind yields exactly one failure, with code `invalid_type`, and
nothing else — integers handed to a float schema and floats handed to an
integer schema included. -/
theorem scalar_kind_mismatch_single_invalid_type :
    (∀ (sc : StringCons) (b : Base) (v : Value) (p : Path),
      v.kind ≠ .kstring → v.kind ≠ .knil →
      ∃ m, validate (.string sc b) v p = some [⟨p, ErrCodeInvalidType, m⟩]) ∧
    (∀ (ic : IntCons) (b : Base) (v : Value) (p : Path),
      v.kind ≠ .kint → v.kind ≠ .knil →
      ∃ m, validate (.int ic b) v p = some [⟨p, ErrCodeInvalidType, m⟩]) ∧
    (∀ (fc : FloatCons) (b : Base) (v : Value) (p : Path),
      v.kind ≠ .kfloat → v.kind ≠ .knil →
      ∃ m, validate (.float fc b) v p = some [⟨p, ErrCodeInvalidType, m⟩]) ∧
    (∀ (b : Base) (v : Value) (p : Path),
      v.kind ≠ .kbool → v.kind ≠ .knil →
      ∃ m, validate (.bool b) v p = some [⟨p, ErrCodeInvalidType, m⟩]) := by
  refine ⟨?_, ?_, ?_, ?_⟩
  · intro sc b v p h1 h2
    cases v <;>
      first
      | exact absurd rfl h1
      | exact absurd rfl h2
      | (simp only [validate]; exact ⟨_, rfl⟩)
  · intro ic b v p h1 h2
    cases v <;>
      first
      | exact absurd rfl h1
      | exact absurd rfl h2
      | (simp only [validate]; exact ⟨_, rfl⟩)
  · intro fc b v p h1 h2
    cases v <;>
      first
      | exact absurd rfl h1
      | exact absurd rfl h2
      | (simp only [validate]; exact ⟨_, rfl⟩)
  · intro b v p h1 h2
    cases v <;>
      first
      | exact absurd rfl h1
      | exact absurd rfl h2
      | (simp only [validate]; exact ⟨_, rfl⟩)

/-- Witness for C2 at concrete mismatches, the two numeric cross-kind
cases included. -/
theorem scalar_kind_mismatch_single_invalid_type_witness :
    (∃ m, validate (.string {} {}) (.vint 7) [] = some [⟨[], ErrCodeInvalidType, m⟩]) ∧
    (∃ m, validate (.int {} {}) (.vfloat (5/2)) [] = some [⟨[], ErrCodeInvalidType, m⟩]) ∧
    (∃ m, validate (.float {} {}) (.vint 3) [] = some [⟨[], ErrCodeInvalidType, m⟩]) ∧
    (∃ m, validate (.bool {}) (.vstr "x") [] = some [⟨[], ErrCodeInvalidType, m⟩]) :=
  ⟨scalar_kind_mismatch_single_invalid_type.1 {} {} (.vint 7) [] (by decide) (by decide),
   scalar_kind_mismatch_single_invalid_type.2.1 {} {} (.vfloat (5/2)) [] (by decide) (by decide),
   scalar_kind_mismatch_single_invalid_type.2.2.1 {} {} (.vint 3) [] (by decide) (by decide),
   scalar_kind_mismatch_single_invalid_type.2.2.2 {} (.vstr "x") [] (by decide) (by decide)⟩

/-- C9: for every schema variant and every input, `Validate` returns
either the absent result (valid) or a present collection with at least one
failure — never an empty-but-present collection. -/
theorem validate_never_empty_present (s : Schema) (v : Value) (p : Path) :
    validate s v p = none ∨ ∃ es, validate s v p = some es ∧ es ≠ [] := by
  cases s <;> cases v <;> simp only [validate] <;>
    first
    | exact finishResult_spec _
    | exact Or.inr ⟨_, rfl, List.cons_ne_nil _ _⟩
    | (split
       · exact Or.inl rfl
       · exact Or.inr ⟨_, rfl, List.cons_ne_nil _ _⟩)

/-- `String().Min(5).Refine(func(any) (bool, string) \x7b return false,
"refine msg" \x7d)`: a failing minimum-length constraint together with a
failing simple refinement. -/
def c3Schema : Schema :=
  .string { minLength := some 5 }
    { refinements := [fun _ => (false, "refine msg")] }

/-- C3 counterexample: on the correctly-typed input `"hi"` the built-in
minimum-length constraint fails, yet the simple refinement still runs and
its `custom_validation` failure appears in the returned collection
alongside the `too_small` failure — refuting the claim that no
`custom_validation` failure can appear when a built-in constraint fails. -/
theorem refinement_runs_despite_constraint_failure_counterexample :
    validate c3Schema (.vstr "hi") [] =
      some [⟨[], ErrCodeTooSmall, "String must be at least 5 character(s) long, got 2"⟩,
            ⟨[], ErrCodeCustomValidation, "refine msg"⟩] ∧
    ((optErrList (validate c3Schema (.vstr "hi") [])).any
        (fun e => e.code == ErrCodeTooSmall) = true ∧
     (optErrList (validate c3Schema (.vstr "hi") [])).any
        (fun e => e.code == ErrCodeCustomValidation) = true) := by
  constructor
  · simp only [c3Schema, validate]
    decide
  · constructor <;> (simp only [c3Schema, validate]; decide)

/-- A failing refinement always contributes a `custom_validation` entry to
`applyRefinements`. -/
lemma applyRefinements_mem_of_fail {b : Base} {v : Value} (p : Path)
    {r : Value → Bool × String} (hr : r ∈ b.refinements) (hf : (r v).1 = false) :
    ∃ e ∈ applyRefinements b v p, e.code = ErrCodeCustomValidation := by
  unfold applyRefinements
  by_cases hm : (r v).2 = ""
  · exact ⟨⟨p, ErrCodeCustomValidation,
        getErrorMessage b p ErrCodeCustomValidation "Custom validation failed"⟩,
      List.mem_flatMap.mpr ⟨r, hr, by simp [hf, hm]⟩, rfl⟩
  · exact ⟨⟨p, ErrCodeCustomValidation,
        getErrorMessage b p ErrCodeCustomValidation (r v).2⟩,
      List.mem_flatMap.mpr ⟨r, hr, by simp [hf, hm]⟩, rfl⟩

/-- A member of the refinement-failure block is a member of the full
accumulation `constraints ++ refinements ++ super-refinements`. -/
lemma mem_middle_block {e0 : VError} {mid : List VError} (hmem : e0 ∈ mid)
    (pre post : List VError) : e0 ∈ pre ++ mid ++ post :=
  List.mem_append.mpr (Or.inl (List.mem_append.mpr (Or.inr hmem)))

/-- C3 (amended): for every scalar schema, simple refinements run whenever
the type check passes, regardless of built-in constraint failures — for
any constraint state and any correctly-typed input on which some attached
refinement fails, the returned collection contains a `custom_validation`
failure. -/
theorem refinements_run_after_type_check_passes :
    (∀ (sc : StringCons) (b : Base) (s : String) (p : Path),
      (∃ r ∈ b.refinements, (r (.vstr s)).1 = false) →
      ∃ es, validate (.string sc b) (.vstr s) p = some es ∧
        ∃ e ∈ es, e.code = ErrCodeCustomValidation) ∧
    (∀ (ic : IntCons) (b : Base) (n : Int) (p : Path),
      (∃ r ∈ b.refinements, (r (.vint n)).1 = false) →
      ∃ es, validate (.int ic b) (.vint n) p = some es ∧
        ∃ e ∈ es, e.code = ErrCodeCustomValidation) ∧
    (∀ (fc : FloatCons) (b : Base) (q : ℚ) (p : Path),
      (∃ r ∈ b.refinements, (r (.vfloat q)).1 = false) →
      ∃ es, validate (.float fc b) (.vfloat q) p = some es ∧
        ∃ e ∈ es, e.code = ErrCodeCustomValidation) ∧
    (∀ (b : Base) (bv : Bool) (p : Path),
      (∃ r ∈ b.refinements, (r (.vbool bv)).1 = false) →
      ∃ es, validate (.bool b) (.vbool bv) p = some es ∧
        ∃ e ∈ es, e.code = ErrCodeCustomValidation) := by
  refine ⟨?_, ?_, ?_, ?_⟩
  · intro sc b s p ⟨r, hr, hf⟩
    obtain ⟨e0, he0, hcode⟩ := applyRefinements_mem_of_fail p hr hf
    have hmemL := mem_middle_block he0 (validateString sc b s p)
      (applySuperRefinements b (.vstr s) p)
    refine ⟨_, ?_, e0, hmemL, hcode⟩
    simp only [validate]
    exact finishResult_of_ne_nil (List.ne_nil_of_mem hmemL)
  · intro ic b n p ⟨r, hr, hf⟩
    obtain ⟨e0, he0, hcode⟩ := applyRefinements_mem_of_fail p hr hf
    have hmemL := mem_middle_block he0 (validateInt ic b n p)
      (applySuperRefinements b (.vint n) p)
    refine ⟨_, ?_, e0, hmemL, hcode⟩
    simp only [validate]
    exact finishResult_of_ne_nil (List.ne_nil_of_mem hmemL)
  · intro fc b q p ⟨r, hr, hf⟩
    obtain ⟨e0, he0, hcode⟩ := applyRefinements_mem_of_fail p hr hf
    have hmemL := mem_middle_block he0 (validateFloat fc b q p)
      (applySuperRefinements b (.vfloat q) p)
    refine ⟨_, ?_, e0, hmemL, hcode⟩
    simp only [validate]
    exact finishResult_of_ne_nil (List.ne_nil_of_mem hmemL)
  · intro b bv p ⟨r, hr, hf⟩
    obtain ⟨e0, he0, hcode⟩ := applyRefinements_mem_of_fail p hr hf
    have hmemL : e0 ∈ applyRefinements b (.vbool bv) p ++
        applySuperRefinements b (.vbool bv) p :=
      List.mem_append.mpr (Or.inl he0)
    refine ⟨_, ?_, e0, hmemL, hcode⟩
    simp only [validate]
    exact finishResult_of_ne_nil (List.ne_nil_of_mem hmemL)

/-- Witness for the amended C3 at the concrete schema of the
counterexample. -/
theorem refinements_run_after_type_check_passes_witness :
    ∃ es, validate c3Schema (.vstr "hi") [] = some es ∧
      ∃ e ∈ es, e.code = ErrCodeCustomValidation :=
  refinements_run_after_type_check_passes.1 { minLength := some 5 }
    { refinements := [fun _ => (false, "refine msg")] } "hi" []
    ⟨fun _ => (false, "refine msg"), by simp, rfl⟩

/-- The shape loop of `MapSchema.Validate` / `StructSchema.Validate`
processes one declared field at a time through `fieldErrors`. -/
lemma validateShape_cons (fname : String) (fsch : Schema)
    (rest : List (String × Schema)) (entries : List (String × Value)) (p : Path) :
    validateShape ((fname, fsch) :: rest) entries p =
      fieldErrors fsch fname entries p ++ validateShape rest entries p := by
  simp only [validateShape, fieldErrors]

/-- C4: for a declared field of a keyed-mapping schema, an input missing
the key entirely and an input carrying the key with the absence value
produce bit-identical failure entries for that field; when the field
schema is required (not nilable) that shared entry is exactly the single
`required` failure at path + field name, with the same message. -/
theorem missing_key_equals_present_nil
    (fsch : Schema) (fname : String) (entries : List (String × Value)) (p : Path)
    (hmiss : assocLookup entries fname = none)
    (hreq : fsch.base.nilable = false) :
    (∀ rest, validateShape ((fname, fsch) :: rest) entries p =
        fieldErrors fsch fname entries p ++ validateShape rest entries p) ∧
    fieldErrors fsch fname entries p =
      fieldErrors fsch fname ((fname, .vnil) :: entries) p ∧
    fieldErrors fsch fname entries p =
      [requiredError fsch.base (PathAppend p (.name fname))] := by
  have h1 : fieldLookup entries fname = .vnil := by
    unfold fieldLookup
    rw [hmiss]
    rfl
  have h2 : fieldLookup ((fname, .vnil) :: entries) fname = .vnil := by
    unfold fieldLookup assocLookup
    simp [List.find?]
  refine ⟨fun rest => validateShape_cons fname fsch rest entries p, ?_, ?_⟩
  · unfold fieldErrors
    rw [h1, h2]
  · unfold fieldErrors
    rw [h1, validate_vnil, hreq]
    simp [optErrList]

/-- Witness for C4: an empty map versus a map carrying `name := nil`,
against a required string field schema. -/
theorem missing_key_equals_present_nil_witness :
    (∀ rest, validateShape (("name", Schema.string {} {}) :: rest) [] [] =
        fieldErrors (.string {} {}) "name" [] [] ++ validateShape rest [] []) ∧
    fieldErrors (.string {} {}) "name" [] [] =
      fieldErrors (.string {} {}) "name" [("name", .vnil)] [] ∧
    fieldErrors (.string {} {}) "name" [] [] =
      [requiredError (Schema.string {} {}).base (PathAppend [] (.name "name"))] :=
  missing_key_equals_present_nil (.string {} {}) "name" [] [] rfl rfl

/-- C5: the element loop of `ArraySchema.Validate` visits every element —
it is exactly the concatenation, in index order, of each element's own
validation failures at path + its index, independent of earlier element
failures; on a correctly-typed ordered collection the whole result is the
length-constraint failures, then all element failures, then the
refinement and super-refinement failures; concretely, two bad elements
both surface, in index order. -/
theorem all_elements_visited_in_index_order :
    (∀ (elem : Schema) (l : List Value) (i : Nat) (p : Path),
      validateElems elem l i p =
        (List.enumFrom i l).flatMap
          (fun pr => optErrList (validate elem pr.2 (PathAppend p (.idx pr.1))))) ∧
    (∀ (elem : Schema) (ac : ArrayCons) (b : Base) (l : List Value) (p : Path),
      validate (.array elem ac b) (.varr l) p =
        finishResult
          (validateArrayLen ac b l p ++ validateElems elem l 0 p ++
           applyRefinements b (.varr l) p ++ applySuperRefinements b (.varr l) p)) ∧
    validate (.array (.int {} {}) {} {}) (.varr [.vstr "a", .vstr "b"]) [] =
      some [⟨[.idx 0], ErrCodeInvalidType, "Expected integer, got string"⟩,
            ⟨[.idx 1], ErrCodeInvalidType, "Expected integer, got string"⟩] := by
  refine ⟨?_, ?_, ?_⟩
  · intro elem l
    induction l with
    | nil => intro i p; simp [validateElems, List.enumFrom]
    | cons v vs ih =>
      intro i p
      simp only [validateElems, List.enumFrom, List.flatMap_cons, ih]
  · intro elem ac b l p
    simp only [validate]
  · simp only [validate, validateElems]
    decide

/-- `String().Refine(func returning (false, "Refinement message"))
.CustomError("custom_validation", "Override message")`. -/
def c6Schema : Schema :=
  .string {}
    { customErrors := [(ErrCodeCustomValidation, "Override message")],
      refinements := [fun _ => (false, "Refinement message")] }

/-- C6 counterexample: with a per-code override registered for
`custom_validation` and a simple refinement returning a non-empty message,
the failure carries the override, not the refinement's message — refuting
the claimed priority of the simple-refinement message over the override
table. -/
theorem refinement_message_priority_counterexample :
    validate c6Schema (.vstr "x") [] =
      some [⟨[], ErrCodeCustomValidation, "Override message"⟩] ∧
    ("Override message" : String) ≠ "Refinement message" := by
  constructor
  · simp only [c6Schema, validate]
    decide
  · decide

/-- C6 (amended): failure messages resolve in this priority order — a
context-aware refinement's explicit message is always used verbatim; for
every other failure the formatter function (when configured) wins, then
the per-code override table, and the built-in default — which, for a
failing simple refinement, is the refinement's non-empty returned message
— is only the final fallback.  In particular a `custom_validation`
override takes precedence over the simple refinement's message. -/
theorem message_priority_chain :
    (∀ (b : Base) (p : Path) (code d : String) (f : Path → String → String → String),
      b.errorFormatter = some f → getErrorMessage b p code d = f p code d) ∧
    (∀ (b : Base) (p : Path) (code d m : String),
      b.errorFormatter = none → lookupStr b.customErrors code = some m →
      getErrorMessage b p code d = m) ∧
    (∀ (b : Base) (p : Path) (code d : String),
      b.errorFormatter = none → lookupStr b.customErrors code = none →
      getErrorMessage b p code d = d) ∧
    (∀ (b : Base) (v : Value) (p : Path) (r : Value → Bool × String) (m : String),
      b.refinements = [r] → r v = (false, m) → m ≠ "" →
      applyRefinements b v p =
        [⟨p, ErrCodeCustomValidation, getErrorMessage b p ErrCodeCustomValidation m⟩]) ∧
    (∀ (b : Base) (v : Value) (p : Path) (r : Value → Bool × String) (m ov : String),
      b.errorFormatter = none → b.refinements = [r] → r v = (false, m) →
      lookupStr b.customErrors ErrCodeCustomValidation = some ov → m ≠ "" →
      applyRefinements b v p = [⟨p, ErrCodeCustomValidation, ov⟩]) ∧
    (∀ (b : Base) (v : Value) (p : Path)
       (sr : Value → List (Path × String × String)) (rel : Path) (code msg : String),
      b.superRefinements = [sr] → sr v = [(rel, code, msg)] →
      applySuperRefinements b v p = [⟨p ++ rel, code, msg⟩]) := by
  refine ⟨?_, ?_, ?_, ?_, ?_, ?_⟩
  · intro b p code d f hf
    unfold getErrorMessage
    rw [hf]
  · intro b p code d m hf hm
    unfold getErrorMessage
    rw [hf, hm]
  · intro b p code d hf hm
    unfold getErrorMessage
    rw [hf, hm]
  · intro b v p r m hrefs hrv hm
    unfold applyRefinements
    rw [hrefs]
    simp [hrv, hm]
  · intro b v p r m ov hf hrefs hrv hov hm
    unfold applyRefinements
    rw [hrefs]
    simp [hrv, hm, getErrorMessage, hf, hov]
  · intro b v p sr rel code msg hsrs hsv
    unfold applySuperRefinements
    rw [hsrs]
    simp [hsv]

/-- Witness for the amended C6 at concrete bases, values, and hooks. -/
theorem message_priority_chain_witness :
    (getErrorMessage
        { errorFormatter := some (fun _ code _ => "F:" ++ code) } [] "c" "d" =
      (fun (_ : Path) (code : String) (_ : String) => "F:" ++ code) [] "c" "d") ∧
    (getErrorMessage { customErrors := [("c", "ov")] } [] "c" "d" = "ov") ∧
    (getErrorMessage {} [] "c" "d" = "d") ∧
    (applyRefinements { refinements := [fun _ => (false, "rm")] } (.vbool true) [] =
      [⟨[], ErrCodeCustomValidation,
        getErrorMessage { refinements := [fun _ => (false, "rm")] } []
          ErrCodeCustomValidation "rm"⟩]) ∧
    (applyRefinements
        { customErrors := [(ErrCodeCustomValidation, "Override message")],
          refinements := [fun _ => (false, "Refinement message")] } (.vbool true) [] =
      [⟨[], ErrCodeCustomValidation, "Override message"⟩]) ∧
    (applySuperRefinements
        { superRefinements := [fun _ => [([.name "confirm"], "not_match", "no")]] }
        (.vbool true) [] =
      [⟨[] ++ [.name "confirm"], "not_match", "no"⟩]) :=
  ⟨message_priority_chain.1 _ [] "c" "d" _ rfl,
   message_priority_chain.2.1 _ [] "c" "d" "ov" rfl rfl,
   message_priority_chain.2.2.1 {} [] "c" "d" rfl rfl,
   message_priority_chain.2.2.2.1 _ (.vbool true) [] _ "rm" rfl rfl (by decide),
   message_priority_chain.2.2.2.2.1 _ (.vbool true) [] _ "Refinement message"
     "Override message" rfl rfl rfl rfl (by decide),
   message_priority_chain.2.2.2.2.2 _ (.vbool true) [] _ [.name "confirm"]
     "not_match" "no" rfl rfl⟩

/-- `Float().MultipleOf(1)`. -/
def c7Schema : Schema := .float { multipleOf := some 1 } {}

/-- C7 (code bug): `-2.5` is not a multiple of `1` — the fractional part
of `-2.5 / 1` is `-1/2` (equivalently `1/2` in magnitude), nowhere near
`0` or `1` — yet `FloatSchema.Validate` accepts it: the truncation
`float64(int64(remainder))` rounds toward zero, so for every negative
quotient the computed fractional part is nonpositive and the rejection
test `frac > 0.0001 && frac < 0.9999` can never fire.  All quantities
here are exact in binary floating point, so the rational model coincides
with the Go computation. -/
theorem negative_multiple_of_accepted_bug :
    validate c7Schema (.vfloat (-5/2)) [] = none ∧
    ((-5/2 : ℚ) / 1 - (truncToward0 ((-5/2 : ℚ) / 1) : ℚ) = -1/2) ∧
    ¬(-1/10000 ≤ (-1/2 : ℚ) ∧ (-1/2 : ℚ) ≤ 1/10000) ∧
    ¬(1 - 1/10000 ≤ (-1/2 : ℚ) ∧ (-1/2 : ℚ) ≤ 1 + 1/10000) := by
  refine ⟨?_, by norm_num [truncToward0], by norm_num, by norm_num⟩
  simp only [c7Schema, validate]
  norm_num [validateFloat, truncToward0, applyRefinements, applySuperRefinements,
    finishResult]

/-- C10: on a correctly-typed value failing the multiple-of constraint,
both the integer and the float schema emit their failure with code
`invalid_type` — the same code used for a primitive-kind mismatch — and
not `too_small`, `too_big`, or a dedicated code. -/
theorem multiple_of_failure_uses_invalid_type_code :
    (∀ (d n : Int) (p : Path), d ≠ 0 → Int.tmod n d ≠ 0 →
      ∃ m, validate (.int { multipleOf := some d } {}) (.vint n) p =
        some [⟨p, ErrCodeInvalidType, m⟩]) ∧
    (∀ (x d : ℚ) (p : Path), d ≠ 0 →
      1/10000 < x / d - (truncToward0 (x / d) : ℚ) →
      x / d - (truncToward0 (x / d) : ℚ) < 9999/10000 →
      ∃ m, validate (.float { multipleOf := some d } {}) (.vfloat x) p =
        some [⟨p, ErrCodeInvalidType, m⟩]) := by
  constructor
  · intro d n p _ hmod
    refine ⟨getErrorMessage {} p ErrCodeInvalidType
      ("Number must be a multiple of " ++ toString d ++ ", got " ++ toString n), ?_⟩
    simp only [validate]
    simp [validateInt, applyRefinements, applySuperRefinements, hmod, finishResult]
  · intro x d p _ hlo hhi
    refine ⟨getErrorMessage {} p ErrCodeInvalidType
      ("Number must be a multiple of " ++ goFloatStr d ++ ", got " ++ goFloatStr x), ?_⟩
    simp only [validate]
    simp [validateFloat, applyRefinements, applySuperRefinements, hlo, hhi, finishResult]
    linarith

/-- Witness for C10: `Int().MultipleOf(5)` on `7` and
`Float().MultipleOf(2)` on `7.5` (quotient `3.75`, fractional part
`3/4`). -/
theorem multiple_of_failure_uses_invalid_type_code_witness :
    (∃ m, validate (.int { multipleOf := some 5 } {}) (.vint 7) [] =
      some [⟨[], ErrCodeInvalidType, m⟩]) ∧
    (∃ m, validate (.float { multipleOf := some 2 } {}) (.vfloat (15/2)) [] =
      some [⟨[], ErrCodeInvalidType, m⟩]) :=
  ⟨multiple_of_failure_uses_invalid_type_code.1 5 7 [] (by decide) (by decide),
   multiple_of_failure_uses_invalid_type_code.2 (15/2) 2 [] (by norm_num)
     (by norm_num [truncToward0]) (by norm_num [truncToward0])⟩

lemma flattenStep_formErrors (acc : FlattenErrorResult) (e : VError) :
    (flattenStep acc e).formErrors =
      if PathToString e.path = "" then acc.formErrors ++ [e.message]
      else acc.formErrors := by
  by_cases h : PathToString e.path = "" <;> simp only [flattenStep, h] <;> simp
  split <;> rfl

lemma flattenStep_fieldErrors_empty (acc : FlattenErrorResult) (e : VError)
    (h : PathToString e.path = "") :
    (flattenStep acc e).fieldErrors = acc.fieldErrors := by
  simp [flattenStep, h]

lemma flattenStep_fieldErrors (acc : FlattenErrorResult) (e : VError)
    (h : PathToString e.path ≠ "") :
    (flattenStep acc e).fieldErrors =
      addFieldError acc.fieldErrors (flattenKey (PathToString e.path)) e.message := by
  unfold flattenStep flattenKey
  rw [if_neg h]
  split <;> rfl

lemma flatten_foldl_form (errs : List VError) :
    ∀ acc, (List.foldl flattenStep acc errs).formErrors =
      acc.formErrors ++
        (errs.filter fun e => decide (PathToString e.path = "")).map (fun e => e.message) := by
  induction errs with
  | nil => intro acc; simp
  | cons e rest ih =>
    intro acc
    rw [List.foldl_cons, ih]
    by_cases h : PathToString e.path = "" <;>
      simp [List.filter_cons, h, flattenStep_formErrors]

lemma flatten_foldl_field (errs : List VError) :
    ∀ acc k, (List.foldl flattenStep acc errs).fieldErrors k =
      acc.fieldErrors k ++
        (errs.filter fun e =>
          decide (PathToString e.path ≠ "" ∧ flattenKey (PathToString e.path) = k)).map
          (fun e => e.message) := by
  induction errs with
  | nil => intro acc k; simp
  | cons e rest ih =>
    intro acc k
    rw [List.foldl_cons, ih]
    by_cases h : PathToString e.path = ""
    · simp [List.filter_cons, h, flattenStep_fieldErrors_empty acc e h]
    · by_cases hk : flattenKey (PathToString e.path) = k
      · rw [flattenStep_fieldErrors acc e h]
        simp [List.filter_cons, h, hk, addFieldError]
      · rw [flattenStep_fieldErrors acc e h]
        have hk2 : ¬(k = flattenKey (PathToString e.path)) := fun hh => hk hh.symm
        simp [List.filter_cons, h, hk, hk2, addFieldError]

/-- The failure list of the C8 scenario: paths `[]`, `["name"]`,
`["tags", 0]`, `["tags", 1]`. -/
def c8Errs : List VError :=
  [⟨[], ErrCodeRequired, "Form error"⟩,
   ⟨[.name "name"], ErrCodeRequired, "Name required"⟩,
   ⟨[.name "tags", .idx 0], ErrCodeRequired, "Tag one"⟩,
   ⟨[.name "tags", .idx 1], ErrCodeRequired, "Tag two"⟩]

/-- C8: `Flatten` partitions a failure collection — every empty-path
failure contributes its message, in discovery order, to the form-errors
list; every non-empty-path failure contributes its message, in discovery
order, to the field-errors group of its key, which is the text before the
first rendered index segment when there is one (merging index segments
into the parent field) and the whole rendered path otherwise; on the
scenario paths, `["tags", 0]` and `["tags", 1]` both land under the single
key `"tags"`. -/
theorem flatten_partitions_and_merges_index_segments :
    (∀ errs : List VError,
      (Flatten errs).formErrors =
        (errs.filter fun e => decide (PathToString e.path = "")).map
          (fun e => e.message)) ∧
    (∀ (errs : List VError) (k : String),
      (Flatten errs).fieldErrors k =
        (errs.filter fun e =>
          decide (PathToString e.path ≠ "" ∧ flattenKey (PathToString e.path) = k)).map
          (fun e => e.message)) ∧
    (PathToString [.name "tags", .idx 0] = "tags[0]" ∧
     PathToString [.name "tags", .idx 1] = "tags[1]" ∧
     flattenKey "tags[0]" = "tags" ∧ flattenKey "tags[1]" = "tags") ∧
    ((Flatten c8Errs).formErrors = ["Form error"] ∧
     (Flatten c8Errs).fieldErrors "name" = ["Name required"] ∧
     (Flatten c8Errs).fieldErrors "tags" = ["Tag one", "Tag two"] ∧
     (Flatten c8Errs).fieldErrors "tags[0]" = []) := by
  refine ⟨?_, ?_, ⟨?_, ?_, ?_, ?_⟩, ⟨?_, ?_, ?_, ?_⟩⟩
  · intro errs
    rw [Flatten, flatten_foldl_form]
    simp
  · intro errs k
    rw [Flatten, flatten_foldl_field]
    simp
  all_goals decide

end Gozod
